import Mathlib

/-!
Verification of the metsi-simlib event-graph core.

The Rust source represents a branching simulation as a graph of shared,
reference-counted nodes (`EventNode<T> = Rc<RefCell<EventDAG<T>>>`), each node
holding a state-transition `operation : T -> T` and an ordered list of
`followers`.  We embed this shallowly as an arena: the graph is a list of
nodes and a follower is the index of another node in the arena.  Sharing a
node among several predecessors is sharing its index.  An acyclic graph is
modelled by the arena invariant that every follower index is strictly larger
than the index of the node that lists it (every finite DAG admits such a
topological numbering, and the generators in the source only ever create
edges from existing nodes to freshly appended ones).  The traversal functions
of the source recurse along follower edges; in the embedding they take a fuel
argument bounded by the arena size, which on acyclic arenas is never
exhausted, so the fuel-free wrappers compute exactly what the source
computes.
-/

namespace Metsi

/-- One node of the event graph, mirroring `struct EventDAG<T>` of
`src/event_graph.rs`: a state-transition operation and the ordered list of
follower nodes (as arena indices). -/
structure EventDAG (T : Type) where
  operation : T → T
  followers : List Nat

/-- The arena holding every node of a graph; a node reference is an index. -/
abbrev Arena (T : Type) := List (EventDAG T)

/-- Follower list of the node at index `i` (empty for an out-of-range index,
which never occurs on the valid graphs the claims quantify over). -/
def followersAt {T : Type} (g : Arena T) (i : Nat) : List Nat :=
  match g[i]? with
  | some nd => nd.followers
  | none => []

/-- Acyclicity of an arena graph: every follower edge points strictly
forward to a valid index.  This is the topologically-numbered presentation
of the "acyclic event graph" precondition of the source. -/
def Acyclic {T : Type} (g : Arena T) : Prop :=
  ∀ i, i < g.length → ∀ j ∈ followersAt g i, i < j ∧ j < g.length

instance {T : Type} (g : Arena T) : Decidable (Acyclic g) := by
  unfold Acyclic; infer_instance

/-- Mirror of `EventDAG::add_follower_node`: push index `j` onto the
follower list of the node at index `i` (no-op for an out-of-range `i`,
which cannot occur in the source, where the target is a live reference). -/
def add_follower_node {T : Type} : Arena T → Nat → Nat → Arena T
  | [], _, _ => []
  | nd :: rest, 0, j => ⟨nd.operation, nd.followers ++ [j]⟩ :: rest
  | nd :: rest, k+1, j => nd :: add_follower_node rest k j

/-- Mirror of `EventDAG::new_node`: a fresh node with no followers.  In the
arena embedding the caller appends it to the arena. -/
def mkNode {T : Type} (op : T → T) : EventDAG T := ⟨op, []⟩

/-- Fuelled mirror of `EventDAG::collect_leaf_nodes`: for each follower,
a leaf follower is pushed itself, a non-leaf follower contributes its own
recursive leaf collection.  Note the node itself is never pushed, so a
follower-less node yields the empty list. -/
def collectLeafF {T : Type} : Nat → Arena T → Nat → List Nat
  | 0, _, _ => []
  | fuel+1, g, i =>
    ((followersAt g i).map (fun j =>
      if (followersAt g j).isEmpty then [j] else collectLeafF fuel g j)).flatten

/-- Mirror of `EventDAG::collect_leaf_nodes` on an arena graph. -/
def collect_leaf_nodes {T : Type} (g : Arena T) (i : Nat) : List Nat :=
  collectLeafF g.length g i

/-- Fuelled mirror of `EventDAG::node_chains`: a follower-less node yields
the single chain `[i]`; otherwise every chain of every follower is prefixed
with `i`, concatenated in follower order. -/
def node_chainsF {T : Type} : Nat → Arena T → Nat → List (List Nat)
  | 0, _, _ => []
  | fuel+1, g, i =>
    if (followersAt g i).isEmpty then [[i]]
    else ((followersAt g i).map
      (fun j => (node_chainsF fuel g j).map (fun c => i :: c))).flatten

/-- Mirror of `EventDAG::node_chains` on an arena graph. -/
def node_chains {T : Type} (g : Arena T) (i : Nat) : List (List Nat) :=
  node_chainsF g.length g i

/-- Apply the operation of the node at index `j` to state `x` (identity for
an out-of-range index, which never occurs for indices drawn from chains of a
valid graph). -/
def applyAt {T : Type} (g : Arena T) (x : T) (j : Nat) : T :=
  match g[j]? with
  | some nd => nd.operation x
  | none => x

/-- Mirror of `EventDAG::evaluate_chains`: fold every chain produced by
`node_chains` over the initial payload, left to right. -/
def evaluate_chains {T : Type} (g : Arena T) (i : Nat) (payload : T) : List T :=
  (node_chains g i).map (fun chain => chain.foldl (applyAt g) payload)

/-- Fuelled mirror of `EventDAG::evaluate_depth`: apply the node's operation
to the payload; a follower-less node yields that single result, otherwise
the follower results (evaluated with the current value) are concatenated in
follower order. -/
def evaluate_depthF {T : Type} : Nat → Arena T → Nat → T → List T
  | 0, _, _, _ => []
  | fuel+1, g, i, payload =>
    match g[i]? with
    | none => []
    | some nd =>
      if nd.followers.isEmpty then [nd.operation payload]
      else (nd.followers.map (fun j => evaluate_depthF fuel g j (nd.operation payload))).flatten

/-- Mirror of `EventDAG::evaluate_depth` on an arena graph. -/
def evaluate_depth {T : Type} (g : Arena T) (i : Nat) (payload : T) : List T :=
  evaluate_depthF g.length g i payload

/-- The list of `k` consecutive arena indices starting at `n`: the indices
of `k` nodes freshly appended to an arena of length `n`. -/
def idxRange : Nat → Nat → List Nat
  | _, 0 => []
  | n, k+1 => n :: idxRange (n+1) k

/-- Mirror of the body of `nodes.iter().reduce(|acc, cur| { acc.add_follower_node(cur); cur })`
in `branching_generators::sequence`, running over node indices: link each
node to the next and return the last one together with the updated arena. -/
def reduceFollowersGo {T : Type} : Arena T → Nat → List Nat → Arena T × Nat
  | g, acc, [] => (g, acc)
  | g, acc, cur :: rest => reduceFollowersGo (add_follower_node g acc cur) cur rest

/-- Mirror of `Iterator::reduce` for the follower-linking closure of
`sequence`: `none` exactly when the node list is empty. -/
def reduceFollowers {T : Type} : Arena T → List Nat → Arena T × Option Nat
  | g, [] => (g, none)
  | g, a :: rest =>
    let r := reduceFollowersGo g a rest
    (r.1, some r.2)

/-- Mirror of `branching_generators::sequence`.  The `Option` result models
the `unwrap` on the reduce: `none` is the panic, which claim C10 states is
unreachable.  With a non-empty operation list: one fresh node per operation
is appended, the fresh nodes are linked into a linear chain, the first fresh
node becomes a follower of every frontier node, and the frontier becomes the
chain's last node. -/
def sequence {T : Type} (g : Arena T) (previous : List Nat)
    (operations : List (T → T)) : Option (Arena T × List Nat) :=
  if operations.length = 0 then some (g, previous)
  else
    let n := g.length
    let g1 := g ++ operations.map mkNode
    match reduceFollowers g1 (idxRange n operations.length) with
    | (g2, some leaf) =>
      some (previous.foldl (fun acc p => add_follower_node acc p n) g2, [leaf])
    | (_, none) => none

/-- Mirror of `branching_generators::alternatives`: with a non-empty
operation list, one fresh follower-less node per operation is appended and
every fresh node becomes a follower of every frontier node; the fresh nodes
are the new frontier. -/
def alternatives {T : Type} (g : Arena T) (previous : List Nat)
    (operations : List (T → T)) : Arena T × List Nat :=
  if operations.length = 0 then (g, previous)
  else
    let n := g.length
    let g1 := g ++ operations.map mkNode
    let news := idxRange n operations.length
    (previous.foldl (fun acc p => news.foldl (fun acc2 j => add_follower_node acc2 p j) acc) g1,
     news)

/-- Mirror of `ParameterMap = HashMap<&str, &str>` as an association list
(lookup finds the first matching key, as the map holds one value per key). -/
abbrev ParameterMap := List (String × String)

/-- Mirror of `configuration_utils::bound_operation` (and the reference-based
variant in `operation_utils`): partial application fixing the parameter set.
The `params.clone()` executed per call in the source is a by-value copy of
the captured map, which is the identity on the map's value. -/
def bound_operation {T : Type} (op : T → ParameterMap → T) (params : ParameterMap) : T → T :=
  fun payload => op payload params

/-- Modelled from the spec: a later external mutation of the original
parameter set (an insert producing the updated map) performed after binding.
The scenario binds, then mutates the original map, then calls the bound
operation; the spec's capture-by-value contract says the call still sees the
bind-time parameters. -/
def bindThenMutate {T : Type} (op : T → ParameterMap → T) (params : ParameterMap)
    (k v : String) (x : T) : T × ParameterMap :=
  let bound := bound_operation op params
  let mutated := (k, v) :: params
  (bound x, mutated)

/-- Total number of follower edges in an arena. -/
def totalEdges {T : Type} (g : Arena T) : Nat :=
  (g.map (fun nd => nd.followers.length)).sum

/-- Modelled from the spec: the leaf collection as the specification words
it — "a node with no followers is itself a leaf; otherwise the result is the
concatenation of leaf collections of each follower, in follower order".
This is the comparison object for claim C2; the source's
`collect_leaf_nodes` differs from it exactly on follower-less nodes. -/
def specLeavesF {T : Type} : Nat → Arena T → Nat → List Nat
  | 0, _, _ => []
  | fuel+1, g, i =>
    if (followersAt g i).isEmpty then [i]
    else ((followersAt g i).map (specLeavesF fuel g)).flatten

/-- Fuel-free wrapper for `specLeavesF` on an arena graph. -/
def specLeaves {T : Type} (g : Arena T) (i : Nat) : List Nat :=
  specLeavesF g.length g i

/-- Modelled from the claim's words for C9: the nodes reachable from `i`
(with repetition along shared paths), collected depth-first. -/
def reachF {T : Type} : Nat → Arena T → Nat → List Nat
  | 0, _, _ => []
  | fuel+1, g, i => i :: ((followersAt g i).map (reachF fuel g)).flatten

/-- Modelled from the claim's words for C9: the number of distinct reachable
leaf (follower-less) nodes from `i`. -/
def distinctLeafCount {T : Type} (g : Arena T) (i : Nat) : Nat :=
  (((reachF g.length g i).filter (fun j => (followersAt g j).isEmpty)).dedup).length

/-- Decimal digits to a natural number, for the parameter values of the
end-to-end scenario (mirrors `str::parse` on the digit strings used). -/
def parseDigits (cs : List Char) : Nat :=
  cs.foldl (fun acc c => acc * 10 + (c.toNat - 48)) 0

/-- Mirror of `"..".parse::<i32>()` for the well-formed numerals appearing
in the end-to-end scenario (`"2"` and `"1"`). -/
def parseI32 (s : String) : Int :=
  match s.data with
  | '-' :: rest => -(Int.ofNat (parseDigits rest))
  | cs => Int.ofNat (parseDigits cs)

/-- Mirror of `increment` in `tests/simulation_test.rs`.  The source unwraps
the parameter lookup and the parse (panicking on failure); the scenario of
claim C8 always finds a well-formed `"increase"` value, so the fallback
branch is never exercised there. -/
def increment (val : Int) (params : ParameterMap) : Int :=
  match params.lookup "increase" with
  | some s => val + parseI32 s
  | none => val

/-- Mirror of `decrement` in `tests/simulation_test.rs` (same unwrapping
remark as for `increment`). -/
def decrement (val : Int) (params : ParameterMap) : Int :=
  match params.lookup "decrease" with
  | some s => val - parseI32 s
  | none => val

/-- Mirror of `do_nothing` in `tests/simulation_test.rs`. -/
def do_nothing (val : Int) : Int := val

/-- The bound add-2 operation of the end-to-end scenario. -/
def incOp : Int → Int := bound_operation increment [("increase", "2")]

/-- The bound subtract-1 operation of the end-to-end scenario. -/
def decOp : Int → Int := bound_operation decrement [("decrease", "1")]

/-- The initial graph of `test_simple_run`: one root node holding the
identity operation. -/
def simInit : Arena Int := [mkNode do_nothing]

/-- The end-to-end scenario of `test_simple_run`: the root extended by
`sequence` with two bound add-2 operations, then `alternatives` with one
bound add-2 and one bound subtract-1 operation, then `sequence` with two
bound add-2 operations, threading the frontier through the generator calls. -/
def simFinal : Option (Arena Int × List Nat) :=
  (sequence simInit [0] [incOp, incOp]).bind (fun s1 =>
    let s2 := alternatives s1.1 s1.2 [incOp, decOp]
    sequence s2.1 s2.2 [incOp, incOp])

/-- The fixture graph of the `event_graph.rs` tests: `root -> s1 -> {b1, b2}`,
every node holding the increment-by-one operation. -/
def fixtureG : Arena Int :=
  [⟨(· + 1), [1]⟩, ⟨(· + 1), [2, 3]⟩, ⟨(· + 1), []⟩, ⟨(· + 1), []⟩]

/-- A single follower-less node: the smallest acyclic graph. -/
def singletonG : Arena Int := [⟨(· + 1), []⟩]

/-- The `nodes_are_shareable` fixture: `root -> s1 -> {b1, b2}` where `b1`
and `b2` share one extension node as their common follower. -/
def sharedG : Arena Int :=
  [⟨(· + 1), [1]⟩, ⟨(· + 1), [2, 3]⟩, ⟨(· + 1), [4]⟩, ⟨(· + 1), [4]⟩, ⟨(· + 1), []⟩]

/-! Structural lemmas about `add_follower_node` and the generator folds. -/

theorem length_add_follower_node {T : Type} (g : Arena T) (p j : Nat) :
    (add_follower_node g p j).length = g.length := by
  induction g generalizing p with
  | nil => rfl
  | cons nd rest ih => cases p <;> simp [add_follower_node, ih]

theorem getElem?_add_follower_node {T : Type} (g : Arena T) (p j i : Nat) :
    (add_follower_node g p j)[i]? =
      if i = p then (g[i]?).map (fun nd => ⟨nd.operation, nd.followers ++ [j]⟩)
      else g[i]? := by
  induction g generalizing p i with
  | nil => simp only [add_follower_node, List.getElem?_nil, Option.map_none']; split <;> rfl
  | cons nd rest ih =>
    cases p with
    | zero =>
      cases i with
      | zero => simp [add_follower_node]
      | succ k => simp [add_follower_node]
    | succ q =>
      cases i with
      | zero => simp [add_follower_node]
      | succ k =>
        simp only [add_follower_node, List.getElem?_cons_succ]
        rw [ih q k]
        by_cases h : k = q
        · subst h; simp
        · rw [if_neg h, if_neg (by omega)]

theorem foldl_add_follower_node_length {T : Type} (prev : List Nat) (g : Arena T) (j : Nat) :
    (prev.foldl (fun acc p => add_follower_node acc p j) g).length = g.length := by
  induction prev generalizing g with
  | nil => rfl
  | cons p rest ih => simp [List.foldl_cons, ih, length_add_follower_node]

theorem foldl_add_follower_node_getElem {T : Type} (prev : List Nat) (g : Arena T) (j i : Nat) :
    (prev.foldl (fun acc p => add_follower_node acc p j) g)[i]? =
      (g[i]?).map (fun nd =>
        ⟨nd.operation, nd.followers ++ List.replicate (prev.count i) j⟩) := by
  induction prev generalizing g with
  | nil => cases hg : g[i]? <;> simp [hg]
  | cons p rest ih =>
    simp only [List.foldl_cons]
    rw [ih, getElem?_add_follower_node]
    by_cases h : i = p
    · subst h
      cases hg : g[i]? with
      | none => simp
      | some nd => simp [List.count_cons, List.replicate_succ, List.append_assoc]
    · rw [if_neg h, List.count_cons, if_neg (by simpa using fun hh => h hh.symm)]
      simp

theorem foldl_add_list_length {T : Type} (js : List Nat) (g : Arena T) (p : Nat) :
    (js.foldl (fun acc2 j => add_follower_node acc2 p j) g).length = g.length := by
  induction js generalizing g with
  | nil => rfl
  | cons j js ih => simp [List.foldl_cons, ih, length_add_follower_node]

theorem foldl_add_list_getElem {T : Type} (js : List Nat) (g : Arena T) (p i : Nat) :
    (js.foldl (fun acc2 j => add_follower_node acc2 p j) g)[i]? =
      if i = p then (g[i]?).map (fun nd => ⟨nd.operation, nd.followers ++ js⟩)
      else g[i]? := by
  induction js generalizing g with
  | nil =>
    by_cases h : i = p
    · subst h; cases hg : g[i]? <;> simp [hg]
    · simp [h]
  | cons j js ih =>
    simp only [List.foldl_cons]
    rw [ih, getElem?_add_follower_node]
    by_cases h : i = p
    · subst h; cases hg : g[i]? <;> simp [hg, List.append_assoc]
    · simp [h]

theorem foldl_add_all_length {T : Type} (prev js : List Nat) (g : Arena T) :
    (prev.foldl (fun acc p => js.foldl (fun acc2 j => add_follower_node acc2 p j) acc) g).length
      = g.length := by
  induction prev generalizing g with
  | nil => rfl
  | cons p rest ih => simp [List.foldl_cons, ih, foldl_add_list_length]

theorem foldl_add_all_getElem {T : Type} (prev js : List Nat) (g : Arena T) (i : Nat) :
    (prev.foldl (fun acc p => js.foldl (fun acc2 j => add_follower_node acc2 p j) acc) g)[i]? =
      (g[i]?).map (fun nd =>
        ⟨nd.operation, nd.followers ++ (List.replicate (prev.count i) js).flatten⟩) := by
  induction prev generalizing g with
  | nil => cases hg : g[i]? <;> simp [hg]
  | cons p rest ih =>
    simp only [List.foldl_cons]
    rw [ih, foldl_add_list_getElem]
    by_cases h : i = p
    · subst h
      cases hg : g[i]? with
      | none => simp
      | some nd => simp [List.count_cons, List.replicate_succ, List.append_assoc]
    · rw [if_neg h, List.count_cons, if_neg (by simpa using fun hh => h hh.symm)]
      simp

theorem totalEdges_add_follower_node {T : Type} (g : Arena T) (p j : Nat) (hp : p < g.length) :
    totalEdges (add_follower_node g p j) = totalEdges g + 1 := by
  induction g generalizing p with
  | nil => simp at hp
  | cons nd rest ih =>
    cases p with
    | zero => simp [add_follower_node, totalEdges]; omega
    | succ q =>
      have hq : q < rest.length := by simpa using hp
      have := ih q hq
      simp only [add_follower_node, totalEdges, List.map_cons, List.sum_cons] at this ⊢
      omega

theorem totalEdges_append {T : Type} (g h : Arena T) :
    totalEdges (g ++ h) = totalEdges g + totalEdges h := by
  simp [totalEdges]

theorem totalEdges_map_mkNode {T : Type} (ops : List (T → T)) :
    totalEdges (ops.map mkNode) = 0 := by
  induction ops with
  | nil => rfl
  | cons op rest ih => simpa [totalEdges, mkNode] using ih

theorem totalEdges_foldl_add_list {T : Type} (js : List Nat) (g : Arena T) (p : Nat)
    (hp : p < g.length) :
    totalEdges (js.foldl (fun acc2 j => add_follower_node acc2 p j) g)
      = totalEdges g + js.length := by
  induction js generalizing g with
  | nil => rfl
  | cons j js ih =>
    simp only [List.foldl_cons]
    rw [ih _ (by rw [length_add_follower_node]; exact hp),
      totalEdges_add_follower_node g p j hp]
    simp; omega

theorem totalEdges_foldl_add_all {T : Type} (prev js : List Nat) (g : Arena T)
    (hv : ∀ p ∈ prev, p < g.length) :
    totalEdges (prev.foldl (fun acc p => js.foldl (fun acc2 j => add_follower_node acc2 p j) acc) g)
      = totalEdges g + prev.length * js.length := by
  induction prev generalizing g with
  | nil => simp
  | cons p rest ih =>
    simp only [List.foldl_cons]
    rw [ih _ (fun q hq => by
        rw [foldl_add_list_length]; exact hv q (List.mem_cons_of_mem _ hq)),
      totalEdges_foldl_add_list js g p (hv p (List.mem_cons_self _ _))]
    simp [Nat.succ_mul]; omega

/-! Lemmas describing the linear chain built by `sequence`. -/

/-- The linear chain of fresh nodes that `sequence` builds when appended at
arena index `n`: each node's sole follower is the next one, the last node
has no followers. -/
def chainNodes {T : Type} : Nat → List (T → T) → Arena T
  | _, [] => []
  | _, [op] => [⟨op, []⟩]
  | n, op :: rest => ⟨op, [n + 1]⟩ :: chainNodes (n + 1) rest

theorem length_chainNodes {T : Type} (ops : List (T → T)) :
    ∀ n, (chainNodes n ops).length = ops.length := by
  induction ops with
  | nil => intro n; rfl
  | cons op rest ih =>
    intro n
    cases rest with
    | nil => rfl
    | cons r1 r2 => simp [chainNodes, ih]

theorem getElem?_chainNodes {T : Type} (ops : List (T → T)) :
    ∀ (n t : Nat) (op : T → T), ops[t]? = some op →
      (chainNodes n ops)[t]? =
        some ⟨op, if t + 1 = ops.length then [] else [n + t + 1]⟩ := by
  induction ops with
  | nil => intro n t op h; simp at h
  | cons op0 rest ih =>
    intro n t op h
    cases rest with
    | nil =>
      cases t with
      | zero => simp at h; simp [chainNodes, h]
      | succ t0 => simp at h
    | cons r1 r2 =>
      cases t with
      | zero =>
        simp at h
        subst h
        rw [chainNodes]
        simp only [List.getElem?_cons_zero]
        rw [if_neg (by simp only [List.length_cons]; omega)]
        intro hh
        exact List.noConfusion hh
      | succ t0 =>
        simp only [List.getElem?_cons_succ] at h
        rw [chainNodes]
        simp only [List.getElem?_cons_succ]
        rw [ih (n + 1) t0 op h]
        rw [show n + 1 + t0 + 1 = n + (t0 + 1) + 1 from by omega]
        by_cases hc : t0 + 1 = (r1 :: r2).length
        · rw [if_pos hc, if_pos (by simp only [List.length_cons] at hc ⊢; omega)]
        · rw [if_neg hc, if_neg (by simp only [List.length_cons] at hc ⊢; omega)]
        intro hh
        exact List.noConfusion hh

theorem add_follower_node_at_boundary {T : Type} (g : Arena T) (nd : EventDAG T)
    (tail : Arena T) (j : Nat) :
    add_follower_node (g ++ nd :: tail) g.length j
      = g ++ ⟨nd.operation, nd.followers ++ [j]⟩ :: tail := by
  induction g with
  | nil => rfl
  | cons h0 rest ih => simp [add_follower_node, ih]

theorem reduceFollowersGo_chain {T : Type} (ops : List (T → T)) :
    ∀ (g : Arena T) (f : T → T),
      reduceFollowersGo (g ++ mkNode f :: ops.map mkNode) g.length
          (idxRange (g.length + 1) ops.length)
        = (g ++ chainNodes g.length (f :: ops), g.length + ops.length) := by
  induction ops with
  | nil =>
    intro g f
    simp [idxRange, reduceFollowersGo, chainNodes, mkNode]
  | cons fb rest ih =>
    intro g f
    simp only [List.length_cons, List.map_cons, idxRange, reduceFollowersGo]
    rw [add_follower_node_at_boundary]
    have hmk : (⟨f, [g.length + 1]⟩ : EventDAG T)
        = ⟨(mkNode f).operation, (mkNode f).followers ++ [g.length + 1]⟩ := by
      simp [mkNode]
    have hsplit : g ++ (⟨f, [g.length + 1]⟩ : EventDAG T) :: mkNode fb :: rest.map mkNode
        = (g ++ [⟨f, [g.length + 1]⟩]) ++ mkNode fb :: rest.map mkNode := by
      rw [List.append_assoc]
      rfl
    have hlen : (g ++ [(⟨f, [g.length + 1]⟩ : EventDAG T)]).length = g.length + 1 := by
      simp
    rw [← hmk, hsplit]
    have := ih (g ++ [⟨f, [g.length + 1]⟩]) fb
    rw [hlen] at this
    rw [this]
    congr 1
    · rw [List.append_assoc]
      rfl
    · omega

/-! Fuel-level lemmas for the recursive traversals.  On an acyclic arena,
fuel at least `g.length - i` is never exhausted starting from node `i`. -/

theorem collectLeafF_leaf {T : Type} (g : Arena T) (i : Nat)
    (h : (followersAt g i).isEmpty = true) :
    ∀ fuel, collectLeafF fuel g i = [] := by
  intro fuel
  cases fuel with
  | zero => rfl
  | succ f =>
    rw [collectLeafF, List.isEmpty_iff.mp h]
    rfl

theorem evaluate_depthF_eq_chainsF {T : Type} (g : Arena T) (hg : Acyclic g) :
    ∀ fuel i x, i < g.length → g.length - i ≤ fuel →
      evaluate_depthF fuel g i x
        = (node_chainsF fuel g i).map (fun c => c.foldl (applyAt g) x) := by
  intro fuel
  induction fuel with
  | zero => intro i x hi hf; exfalso; omega
  | succ fuel ih =>
    intro i x hi hf
    obtain ⟨nd, hnd⟩ : ∃ nd, g[i]? = some nd := ⟨_, List.getElem?_eq_getElem hi⟩
    have hfol : followersAt g i = nd.followers := by simp [followersAt, hnd]
    simp only [evaluate_depthF, node_chainsF, hnd, hfol]
    by_cases hleaf : nd.followers.isEmpty = true
    · simp only [if_pos hleaf, List.map_cons, List.map_nil, List.foldl_cons, List.foldl_nil]
      simp [applyAt, hnd]
    · simp only [if_neg hleaf]
      rw [List.map_flatten, List.map_map]
      congr 1
      apply List.map_congr_left
      intro j hj
      have hmem : j ∈ followersAt g i := by rw [hfol]; exact hj
      obtain ⟨hij, hjlen⟩ := hg i hi j hmem
      rw [ih j (nd.operation x) hjlen (by omega)]
      simp only [Function.comp_apply]
      rw [List.map_map]
      apply List.map_congr_left
      intro c _
      simp only [Function.comp_apply, List.foldl_cons]
      rw [show applyAt g x i = nd.operation x from by simp [applyAt, hnd]]

theorem node_chainsF_length_eq_collectLeafF_length {T : Type} (g : Arena T) (hg : Acyclic g) :
    ∀ fuel i, i < g.length → g.length - i ≤ fuel → (followersAt g i).isEmpty = false →
      (node_chainsF fuel g i).length = (collectLeafF fuel g i).length := by
  intro fuel
  induction fuel with
  | zero => intro i hi hf _; exfalso; omega
  | succ fuel ih =>
    intro i hi hf hnl
    rw [node_chainsF, collectLeafF, if_neg (by simp [hnl])]
    rw [List.length_flatten, List.length_flatten, List.map_map, List.map_map]
    congr 1
    apply List.map_congr_left
    intro j hj
    obtain ⟨hij, hjlen⟩ := hg i hi j hj
    by_cases hleaf : (followersAt g j).isEmpty = true
    · obtain ⟨fuel2, rfl⟩ : ∃ f2, fuel = f2 + 1 := ⟨fuel - 1, by omega⟩
      simp only [Function.comp_apply, node_chainsF, if_pos hleaf, if_pos hleaf]
      simp
    · have hrec := ih j hjlen (by omega) (by simpa using hleaf)
      simp only [Function.comp_apply, if_neg hleaf]
      simpa using hrec

theorem collectF_eq_specLeavesF {T : Type} (g : Arena T) (hg : Acyclic g) :
    ∀ fuel j, j < g.length → g.length - j ≤ fuel →
      (if (followersAt g j).isEmpty then [j] else collectLeafF fuel g j)
        = specLeavesF fuel g j := by
  intro fuel
  induction fuel with
  | zero => intro j hj hf; exfalso; omega
  | succ fuel ih =>
    intro j hj hf
    by_cases hleaf : (followersAt g j).isEmpty = true
    · rw [if_pos hleaf, specLeavesF, if_pos hleaf]
    · rw [if_neg hleaf, specLeavesF, if_neg hleaf, collectLeafF]
      congr 1
      apply List.map_congr_left
      intro j2 hj2
      obtain ⟨hjj, hj2len⟩ := hg j hj j2 hj2
      exact ih j2 hj2len (by omega)

/-! Closed forms for the generators on a non-empty operation list. -/

theorem idxRange_length : ∀ (k n : Nat), (idxRange n k).length = k := by
  intro k
  induction k with
  | zero => intro n; rfl
  | succ k ih => intro n; simp [idxRange, ih]

theorem sequence_cons {T : Type} (g : Arena T) (prev : List Nat) (f : T → T)
    (rest : List (T → T)) :
    sequence g prev (f :: rest)
      = some (prev.foldl (fun acc p => add_follower_node acc p g.length)
                (g ++ chainNodes g.length (f :: rest)),
              [g.length + rest.length]) := by
  unfold sequence
  rw [if_neg (by simp)]
  simp only [List.map_cons, List.length_cons, idxRange, reduceFollowers]
  rw [reduceFollowersGo_chain rest g f]

theorem alternatives_eq_of_ne {T : Type} (g : Arena T) (prev : List Nat)
    (ops : List (T → T)) (hops : ops ≠ []) :
    alternatives g prev ops
      = (prev.foldl (fun acc p =>
            (idxRange g.length ops.length).foldl (fun acc2 j => add_follower_node acc2 p j) acc)
          (g ++ ops.map mkNode),
         idxRange g.length ops.length) := by
  unfold alternatives
  rw [if_neg (by simpa [List.length_eq_zero] using hops)]

/-! The claims. -/

/-- C1: for every acyclic event graph and every node in it, chain-based
evaluation (`evaluate_chains`) and depth-first evaluation (`evaluate_depth`)
produce identical ordered result sequences for every initial state. -/
theorem evaluate_chains_eq_evaluate_depth {T : Type} (g : Arena T) (i : Nat) (x : T)
    (hg : Acyclic g) (hi : i < g.length) :
    evaluate_chains g i x = evaluate_depth g i x := by
  rw [evaluate_chains, node_chains, evaluate_depth,
    evaluate_depthF_eq_chainsF g hg g.length i x hi (Nat.sub_le _ _)]

/-- Witness for C1 on the test fixture graph. -/
theorem evaluate_chains_eq_evaluate_depth_witness :
    Acyclic fixtureG ∧ 0 < fixtureG.length ∧
      evaluate_chains fixtureG 0 (0 : Int) = evaluate_depth fixtureG 0 0 :=
  ⟨by decide, by decide,
    evaluate_chains_eq_evaluate_depth fixtureG 0 0 (by decide) (by decide)⟩

/-- C2 as stated is false: in the source, `collect_leaf_nodes` on a node
with no followers returns the empty sequence, not the single-element
sequence containing the node itself. -/
theorem collect_leaf_nodes_leaf_cex :
    Acyclic singletonG ∧ 0 < singletonG.length ∧
      collect_leaf_nodes singletonG 0 = [] ∧
      collect_leaf_nodes singletonG 0 ≠ [0] := by
  decide

/-- C2 amended: `collect_leaf_nodes` of a follower-less node is the empty
sequence; on a node with followers it equals the spec's leaf collection,
which is the concatenation, in follower order, of the followers' leaf
collections with a leaf follower contributing itself. -/
theorem collect_leaf_nodes_amended {T : Type} (g : Arena T) (i : Nat)
    (hg : Acyclic g) (hi : i < g.length) :
    collect_leaf_nodes g i
      = if (followersAt g i).isEmpty then [] else specLeaves g i := by
  by_cases hleaf : (followersAt g i).isEmpty = true
  · rw [if_pos hleaf, collect_leaf_nodes, collectLeafF_leaf g i hleaf]
  · rw [if_neg hleaf, collect_leaf_nodes, specLeaves]
    have h := collectF_eq_specLeavesF g hg g.length i hi (Nat.sub_le _ _)
    rw [if_neg hleaf] at h
    exact h

/-- Witness for the amended C2 on the test fixture graph. -/
theorem collect_leaf_nodes_amended_witness :
    Acyclic fixtureG ∧ 0 < fixtureG.length ∧
      collect_leaf_nodes fixtureG 0
        = if (followersAt fixtureG 0).isEmpty then [] else specLeaves fixtureG 0 :=
  ⟨by decide, by decide, collect_leaf_nodes_amended fixtureG 0 (by decide) (by decide)⟩

/-- C3 as stated is false: on a follower-less root the source produces one
chain but zero collected leaf nodes. -/
theorem chain_count_leaf_cex :
    Acyclic singletonG ∧ 0 < singletonG.length ∧
      (node_chains singletonG 0).length = 1 ∧
      (collect_leaf_nodes singletonG 0).length = 0 ∧
      (node_chains singletonG 0).length ≠ (collect_leaf_nodes singletonG 0).length := by
  decide

/-- C3 amended: for every acyclic event graph and every node that has at
least one follower, the number of chains returned by `node_chains` equals
the number of nodes returned by `collect_leaf_nodes`. -/
theorem chain_count_eq_leaf_count {T : Type} (g : Arena T) (i : Nat)
    (hg : Acyclic g) (hi : i < g.length)
    (hnl : (followersAt g i).isEmpty = false) :
    (node_chains g i).length = (collect_leaf_nodes g i).length :=
  node_chainsF_length_eq_collectLeafF_length g hg g.length i hi (Nat.sub_le _ _) hnl

/-- Witness for the amended C3 on the test fixture graph. -/
theorem chain_count_eq_leaf_count_witness :
    Acyclic fixtureG ∧ 0 < fixtureG.length ∧
      (followersAt fixtureG 0).isEmpty = false ∧
      (node_chains fixtureG 0).length = (collect_leaf_nodes fixtureG 0).length :=
  ⟨by decide, by decide, by decide,
    chain_count_eq_leaf_count fixtureG 0 (by decide) (by decide) (by decide)⟩

/-- C4: for every frontier, calling either generator with an empty
operations list is a no-op: the arena is unchanged (no nodes created, no
followers added) and the very same frontier is returned. -/
theorem generators_empty_ops_noop {T : Type} (g : Arena T) (previous : List Nat) :
    sequence g previous [] = some (g, previous) ∧
      alternatives g previous [] = (g, previous) :=
  ⟨rfl, rfl⟩

/-- C7: the bound operation applies the wrapped two-argument operation to
the state and the bind-time parameter set, and a later mutation of the
original parameter set does not change the behaviour of an already-bound
operation. -/
theorem bound_operation_correct {T : Type} (op : T → ParameterMap → T)
    (params : ParameterMap) (k v : String) (x : T) :
    bound_operation op params x = op x params ∧
      (bindThenMutate op params k v x).1 = op x params :=
  ⟨rfl, rfl⟩

/-- C8: the end-to-end scenario (identity root, `sequence` with two bound
add-2 operations, `alternatives` with one bound add-2 and one bound
subtract-1 operation, `sequence` with two bound add-2 operations) evaluated
depth-first from the root with initial state 10 yields exactly [20, 17]. -/
theorem simulation_end_to_end :
    simFinal.map (fun r => evaluate_depth r.1 0 10) = some [20, 17] := by
  decide

/-- C9 as stated is false: in the shared-leaf fixture of the source tests,
depth-first evaluation yields two results although only one distinct leaf
node is reachable, because a shared leaf is visited once per path. -/
theorem evaluate_depth_distinct_leaf_cex :
    Acyclic sharedG ∧ 0 < sharedG.length ∧
      (evaluate_depth sharedG 0 (0 : Int)).length = 2 ∧
      distinctLeafCount sharedG 0 = 1 ∧
      (evaluate_depth sharedG 0 (0 : Int)).length ≠ distinctLeafCount sharedG 0 := by
  decide

/-- C9 amended: the sequence returned by `evaluate_depth` contains exactly
one result per root-to-leaf path (one per chain of `node_chains`); a leaf
shared by several predecessors contributes one result per path reaching
it, not one result overall. -/
theorem evaluate_depth_length_eq_chain_count {T : Type} (g : Arena T) (i : Nat) (x : T)
    (hg : Acyclic g) (hi : i < g.length) :
    (evaluate_depth g i x).length = (node_chains g i).length := by
  rw [evaluate_depth, node_chains,
    evaluate_depthF_eq_chainsF g hg g.length i x hi (Nat.sub_le _ _), List.length_map]

/-- Witness for the amended C9 on the shared-leaf fixture. -/
theorem evaluate_depth_length_eq_chain_count_witness :
    Acyclic sharedG ∧ 0 < sharedG.length ∧
      (evaluate_depth sharedG 0 (0 : Int)).length = (node_chains sharedG 0).length :=
  ⟨by decide, by decide,
    evaluate_depth_length_eq_chain_count sharedG 0 0 (by decide) (by decide)⟩

/-- C10: `sequence` is total: the reduce over the freshly created node list
returns a value whenever the operation list is non-empty, and the empty
list takes the early-return branch, so the `unwrap` never panics. -/
theorem sequence_total {T : Type} (g : Arena T) (prev : List Nat) (ops : List (T → T)) :
    (sequence g prev ops).isSome = true := by
  cases ops with
  | nil => rfl
  | cons f rest => rw [sequence_cons]; rfl

/-- C5: with a non-empty operation list, `sequence` creates exactly one new
node per operation, linked into a linear chain (node `t`'s sole follower is
node `t+1`, the last chain node has no followers), appends the chain's
first node (index `g.length`) as a follower of every frontier node (once
per occurrence), and returns the single-element frontier holding the
chain's last node. -/
theorem sequence_nonempty_spec {T : Type} (g : Arena T) (prev : List Nat)
    (ops : List (T → T)) (hops : ops ≠ []) (hv : ∀ p ∈ prev, p < g.length) :
    ∃ g2,
      sequence g prev ops = some (g2, [g.length + (ops.length - 1)]) ∧
      g2.length = g.length + ops.length ∧
      (∀ (t : Nat) (op : T → T), ops[t]? = some op →
        g2[g.length + t]? =
          some ⟨op, if t + 1 = ops.length then [] else [g.length + t + 1]⟩) ∧
      (∀ i, i < g.length →
        g2[i]? = (g[i]?).map (fun nd =>
          ⟨nd.operation, nd.followers ++ List.replicate (prev.count i) g.length⟩)) := by
  cases ops with
  | nil => exact absurd rfl hops
  | cons f rest =>
    refine ⟨prev.foldl (fun acc p => add_follower_node acc p g.length)
        (g ++ chainNodes g.length (f :: rest)), ?_, ?_, ?_, ?_⟩
    · rw [sequence_cons]
      simp
    · rw [foldl_add_follower_node_length, List.length_append, length_chainNodes]
    · intro t op hop
      rw [foldl_add_follower_node_getElem]
      have hcount : prev.count (g.length + t) = 0 :=
        List.count_eq_zero.mpr (fun hmem => by have := hv _ hmem; omega)
      rw [hcount]
      rw [List.getElem?_append_right (by omega : g.length ≤ g.length + t)]
      rw [show g.length + t - g.length = t from by omega]
      rw [getElem?_chainNodes (f :: rest) g.length t op hop]
      simp
    · intro i hi
      rw [foldl_add_follower_node_getElem, List.getElem?_append_left hi]

/-- Fixture frontier graph for the generator witnesses: one identity node. -/
def gW : Arena Int := [mkNode (fun x => x)]

/-- Fixture operation list for the generator witnesses. -/
def opsW : List (Int → Int) := [fun x => x + 1, fun x => x + 2]

/-- Witness for C5 on a one-node frontier and two operations. -/
theorem sequence_nonempty_spec_witness :
    opsW ≠ [] ∧ (∀ p ∈ [0], p < gW.length) ∧
      (∃ g2,
        sequence gW [0] opsW = some (g2, [gW.length + (opsW.length - 1)]) ∧
        g2.length = gW.length + opsW.length ∧
        (∀ (t : Nat) (op : Int → Int), opsW[t]? = some op →
          g2[gW.length + t]? =
            some ⟨op, if t + 1 = opsW.length then [] else [gW.length + t + 1]⟩) ∧
        (∀ i, i < gW.length →
          g2[i]? = (gW[i]?).map (fun nd =>
            ⟨nd.operation, nd.followers ++ List.replicate ([0].count i) gW.length⟩))) :=
  ⟨by simp [opsW], by decide,
    sequence_nonempty_spec gW [0] opsW (by simp [opsW]) (by decide)⟩

/-- C6: with a frontier of size `f` and a non-empty list of `k` operations,
`alternatives` creates exactly `k` new follower-less nodes with no edges
among them, adds exactly `f * k` new edges (every new node becomes a
follower of every frontier node, so each new node is shared across all `f`
predecessors), and returns the `k` new nodes as the new frontier. -/
theorem alternatives_nonempty_spec {T : Type} (g : Arena T) (prev : List Nat)
    (ops : List (T → T)) (hops : ops ≠ []) (hv : ∀ p ∈ prev, p < g.length) :
    ∃ g2,
      alternatives g prev ops = (g2, idxRange g.length ops.length) ∧
      (idxRange g.length ops.length).length = ops.length ∧
      g2.length = g.length + ops.length ∧
      (∀ (t : Nat) (op : T → T), ops[t]? = some op →
        g2[g.length + t]? = some ⟨op, []⟩) ∧
      (∀ i, i < g.length →
        g2[i]? = (g[i]?).map (fun nd =>
          ⟨nd.operation,
            nd.followers
              ++ (List.replicate (prev.count i) (idxRange g.length ops.length)).flatten⟩)) ∧
      totalEdges g2 = totalEdges g + prev.length * ops.length := by
  rw [alternatives_eq_of_ne g prev ops hops]
  refine ⟨_, rfl, idxRange_length _ _, ?_, ?_, ?_, ?_⟩
  · rw [foldl_add_all_length, List.length_append, List.length_map]
  · intro t op hop
    rw [foldl_add_all_getElem]
    have hcount : prev.count (g.length + t) = 0 :=
      List.count_eq_zero.mpr (fun hmem => by have := hv _ hmem; omega)
    rw [hcount]
    rw [List.getElem?_append_right (by omega : g.length ≤ g.length + t)]
    rw [show g.length + t - g.length = t from by omega]
    rw [List.getElem?_map, hop]
    simp [mkNode]
  · intro i hi
    rw [foldl_add_all_getElem, List.getElem?_append_left hi]
  · rw [totalEdges_foldl_add_all _ _ _ (fun p hp => by
        rw [List.length_append]; have := hv p hp; omega),
      totalEdges_append, totalEdges_map_mkNode, idxRange_length]
    omega

/-- Witness for C6 on a one-node frontier and two operations. -/
theorem alternatives_nonempty_spec_witness :
    opsW ≠ [] ∧ (∀ p ∈ [0], p < gW.length) ∧
      (∃ g2,
        alternatives gW [0] opsW = (g2, idxRange gW.length opsW.length) ∧
        (idxRange gW.length opsW.length).length = opsW.length ∧
        g2.length = gW.length + opsW.length ∧
        (∀ (t : Nat) (op : Int → Int), opsW[t]? = some op →
          g2[gW.length + t]? = some ⟨op, []⟩) ∧
        (∀ i, i < gW.length →
          g2[i]? = (gW[i]?).map (fun nd =>
            ⟨nd.operation,
              nd.followers
                ++ (List.replicate ([0].count i) (idxRange gW.length opsW.length)).flatten⟩)) ∧
        totalEdges g2 = totalEdges gW + ([0] : List Nat).length * opsW.length) :=
  ⟨by simp [opsW], by decide,
    alternatives_nonempty_spec gW [0] opsW (by simp [opsW]) (by decide)⟩

end Metsi
